import Mathlib

/-!
Shallow embedding of the PicoHumidityTemperatureRead client (src/main.rs).

The program encodes the local clock into a 6-byte packet (the array literal
`packed_now`, main.rs lines 70-83), sends it to the device, reads a 4-byte
little-endian measurement count, checks it against the theoretical maximum
512 * 16 * 32, then reads 8-byte little-endian words until the stream ends,
decoding each into a `Measurement` (main.rs lines 108-148), shuts the
connection down, and finally hands every measurement to the database sink in
order (main.rs lines 158-171).

Machine integers are modelled as `Nat` (unsigned) or `Int` (the `i32` year)
with explicit `% 256` / `% 65536` wherever a Rust `as u8` / `as u16` cast or a
wrapping shift truncates.  Calendar validity reproduces what
`chrono::NaiveDate::from_ymd_opt` and `chrono::NaiveTime::from_hms_opt` check
on the values this program can produce (the 16-bit year extracted from the
wire always lies inside the year range chrono supports, so chrono's global
year-range check can never fire here and is omitted).  Resolution of a naive
local datetime by `Local.from_local_datetime` is time-zone dependent, so it is
modelled by an explicit parameter `tz : NaiveDT → LocalResult τ` covering the
three chrono outcomes `Single`, `Ambiguous` and `None`.
-/

namespace PicoHTR

/-- The three outcomes of `chrono::offset::LocalResult` as matched by main.rs
lines 138-142. -/
inductive LocalResult (τ : Type) : Type where
  | single (t : τ)
  | ambiguous (t1 t2 : τ)
  | none
deriving DecidableEq

/-- A naive (zone-free) calendar datetime, the argument the program passes to
`Local.from_local_datetime`. -/
structure NaiveDT : Type where
  year : Int
  month : Nat
  day : Nat
  hour : Nat
  minute : Nat
  second : Nat
deriving DecidableEq

/-- The decoded record (struct `Measurement` of main.rs). `time` is the
resolved local instant, of abstract type `τ`; `temp` and `humidity` are the
`i32` fields, modelled as `Int`. -/
structure Measurement (τ : Type) : Type where
  time : τ
  temp : Int
  humidity : Int
deriving DecidableEq

/-- The error conditions the run can abort with; each corresponds to one
`anyhow!` message (or, for `readIoError`, the non-EOF read failure) of
main.rs. -/
inductive Err : Type where
  | invalidDate
  | invalidTime
  | ambiguousTime
  | impossibleTime
  | readIoError
  | shutdownError
  | sinkError
deriving DecidableEq

/-- Proleptic-Gregorian leap-year rule used by chrono. -/
def isLeapYear (y : Int) : Prop :=
  y % 4 = 0 ∧ (y % 100 ≠ 0 ∨ y % 400 = 0)

instance (y : Int) : Decidable (isLeapYear y) := by
  unfold isLeapYear; infer_instance

/-- Length of a month in the proleptic Gregorian calendar, as used by
`chrono::NaiveDate`. -/
def daysInMonth (y : Int) (m : Nat) : Nat :=
  if m = 2 then (if isLeapYear y then 29 else 28)
  else if m = 4 ∨ m = 6 ∨ m = 9 ∨ m = 11 then 30
  else 31

/-- What `NaiveDate::from_ymd_opt y m d` checks for the year values this
program extracts (16-bit years are always inside the range chrono supports). -/
def validDate (y : Int) (m d : Nat) : Prop :=
  1 ≤ m ∧ m ≤ 12 ∧ 1 ≤ d ∧ d ≤ daysInMonth y m

instance (y : Int) (m d : Nat) : Decidable (validDate y m d) := by
  unfold validDate; infer_instance

/-- What `NaiveTime::from_hms_opt h mi s` checks (no leap-second nanoseconds
are involved here). -/
def validTime (h mi s : Nat) : Prop :=
  h < 24 ∧ mi < 60 ∧ s < 60

instance (h mi s : Nat) : Decidable (validTime h mi s) := by
  unfold validTime; infer_instance

/-- Field extraction of main.rs lines 124-136: the naive datetime packed into
one 64-bit little-endian word.  The year is 16 bits taken absolutely, month
and day are stored zero-based and incremented. -/
def extractNDT (w : Nat) : NaiveDT :=
  { year := ((w >>> 26) &&& 65535 : Nat)
    month := ((w >>> 22) &&& 15) + 1
    day := ((w >>> 17) &&& 31) + 1
    hour := (w >>> 12) &&& 31
    minute := (w >>> 6) &&& 63
    second := w &&& 63 }

/-- Temp field of the packed word (main.rs line 146): bits 42-50, kept raw. -/
def decodeTemp (w : Nat) : Int := ((w >>> 42) &&& 511 : Nat)

/-- Humidity field of the packed word (main.rs line 147): bits 51-60, kept
raw. -/
def decodeHumidity (w : Nat) : Int := ((w >>> 51) &&& 1023 : Nat)

/-- Decoding of one packed measurement word (main.rs lines 123-148): build the
naive date (failing with `invalidDate`), the naive time (failing with
`invalidTime`), resolve the local instant through `tz` (failing with
`ambiguousTime` or `impossibleTime` on the non-unique outcomes), and assemble
the `Measurement`. -/
def decode {τ : Type} (tz : NaiveDT → LocalResult τ) (w : Nat) :
    Except Err (Measurement τ) :=
  if validDate (extractNDT w).year (extractNDT w).month (extractNDT w).day then
    if validTime (extractNDT w).hour (extractNDT w).minute (extractNDT w).second then
      match tz (extractNDT w) with
      | .single t => .ok { time := t, temp := decodeTemp w, humidity := decodeHumidity w }
      | .ambiguous _ _ => .error .ambiguousTime
      | .none => .error .impossibleTime
    else .error .invalidTime
  else .error .invalidDate

/-- Decode a whole list of words, stopping at the first failure; used to state
properties of the receive loop. -/
def decodeAll {τ : Type} (tz : NaiveDT → LocalResult τ) :
    List Nat → Except Err (List (Measurement τ))
  | [] => .ok []
  | w :: ws =>
    match decode tz w with
    | .error e => .error e
    | .ok m =>
      match decodeAll tz ws with
      | .error e => .error e
      | .ok ms => .ok (m :: ms)

/-- How the byte stream from the device ends: the peer closes it cleanly
(`ErrorKind::UnexpectedEof` from `read_u64_le`, the loop terminator of main.rs
line 110) or the transport fails with some other I/O error (fatal, main.rs
line 113). -/
inductive TailEvent : Type where
  | clean
  | ioError
deriving DecidableEq

/-- `u64::from_le_bytes` on eight bytes, least significant first. -/
def u64leB (b0 b1 b2 b3 b4 b5 b6 b7 : Nat) : Nat :=
  b0 + b1 * 256 + b2 * 65536 + b3 * 16777216 + b4 * 4294967296 +
    b5 * 1099511627776 + b6 * 281474976710656 + b7 * 72057594037927936

/-- The little-endian bytes of one 64-bit word, as the device sends them. -/
def le8 (w : Nat) : List Nat :=
  [w % 256, w / 256 % 256, w / 65536 % 256, w / 16777216 % 256,
   w / 4294967296 % 256, w / 1099511627776 % 256, w / 281474976710656 % 256,
   w / 72057594037927936 % 256]

/-- Concatenation of the little-endian encodings of a list of words. -/
def wordsBytes : List Nat → List Nat
  | [] => []
  | w :: ws => le8 w ++ wordsBytes ws

/-- The record-read loop of main.rs lines 108-149 over the remaining byte
stream: `read_u64_le` consumes eight bytes when at least eight remain;
otherwise it surfaces the tail event, where clean end-of-stream breaks the
loop and any other error is fatal.  Each full word is decoded and collected
(the `measurements` vector). -/
def recvLoop {τ : Type} (tz : NaiveDT → LocalResult τ) (tl : TailEvent) :
    List Nat → Except Err (List (Measurement τ))
  | b0 :: b1 :: b2 :: b3 :: b4 :: b5 :: b6 :: b7 :: rest =>
    match decode tz (u64leB b0 b1 b2 b3 b4 b5 b6 b7) with
    | .error e => .error e
    | .ok m =>
      match recvLoop tz tl rest with
      | .error e => .error e
      | .ok ms => .ok (m :: ms)
  | _ =>
    match tl with
    | .clean => .ok []
    | .ioError => .error .readIoError

/-- The insertion loop of main.rs lines 158-171: the sink is invoked once per
measurement in order; a failure stops the loop.  Returns the list of
measurements the sink was actually invoked on, and whether every invocation
succeeded. -/
def insertLoop {τ : Type} (sink : Measurement τ → Bool) :
    List (Measurement τ) → List (Measurement τ) × Bool
  | [] => ([], true)
  | m :: ms =>
    if sink m then
      match insertLoop sink ms with
      | (tr, ok) => (m :: tr, ok)
    else ([m], false)

/-- Theoretical maximum measurement count, 512 sectors times 16 pages times 32
measurements (main.rs lines 99-101). -/
def maxCount : Nat := 512 * 16 * 32

/-- Outcome of a run: `success` models `Ok(ExitCode::SUCCESS)`,
`countExceeded` the soft failure `Ok(ExitCode::FAILURE)` printed at main.rs
line 104, and `fatal e` the `Err(anyhow!(..))` returns. -/
inductive Outcome : Type where
  | success
  | countExceeded
  | fatal (e : Err)
deriving DecidableEq

/-- The session and ingestion pipeline of main (main.rs lines 94-174) after
the count has been read: reject a count above the maximum as a soft failure,
run the record-read loop, shut the connection down (fatal on failure), then
insert every measurement in order (fatal on the first sink failure).  The
second component is the list of measurements the sink was invoked on. -/
def run {τ : Type} (tz : NaiveDT → LocalResult τ) (count : Nat)
    (bytes : List Nat) (tl : TailEvent) (shutdownOk : Bool)
    (sink : Measurement τ → Bool) : Outcome × List (Measurement τ) :=
  if maxCount < count then (.countExceeded, [])
  else
    match recvLoop tz tl bytes with
    | .error e => (.fatal e, [])
    | .ok ms =>
      if shutdownOk then
        match insertLoop sink ms with
        | (tr, true) => (.success, tr)
        | (tr, false) => (.fatal .sinkError, tr)
      else (.fatal .shutdownError, [])

/-- Fields of the local instant consumed by the `packed_now` array (main.rs
lines 70-83).  `weekdayFromSunday` is chrono's `number_from_sunday`, 1 for
Sunday through 7 for Saturday, and `day0` and `month0` are the zero-based day
and month accessors. -/
structure NowParts : Type where
  year : Int
  month0 : Nat
  day0 : Nat
  hour : Nat
  minute : Nat
  second : Nat
  weekdayFromSunday : Nat
deriving DecidableEq

/-- Rust `as u8` on the `i32` year. -/
def u8i (y : Int) : Nat := (y % 256).toNat

/-- Rust `as u16` on the `i32` year. -/
def u16i (y : Int) : Nat := (y % 65536).toNat

/-- The 6-byte clock packet, translated literally from the `packed_now` array
literal (main.rs lines 70-83).  Every `u8` shift-left wraps modulo 256, the
`u16` shift-left in the last byte wraps modulo 65536, and each cast is an
explicit modulus.  `number_from_sunday` is at least 1, so the `u8` subtraction
in byte 2 never underflows on real inputs; `Nat` subtraction matches it
there. -/
def packedNow (p : NowParts) : List Nat :=
  [ ((p.second % 256) &&& 63) ||| (((p.minute % 256) <<< 6) % 256),
    (((p.minute % 256) >>> 2) &&& 15) ||| (((p.hour % 256) <<< 4) % 256),
    (((p.hour % 256) >>> 4) &&& 1) ||| ((((p.weekdayFromSunday % 256) - 1) <<< 1) % 256)
      ||| (((p.day0 % 256) <<< 4) % 256),
    (((p.day0 % 256) >>> 4) &&& 1) ||| ((((p.month0 % 256) &&& 15) <<< 1) % 256)
      ||| (((u8i p.year) <<< 5) % 256),
    ((u16i p.year) >>> 3) % 256,
    (((u16i p.year) <<< 11) % 65536) % 256 ]

instance {ε α : Type} [DecidableEq ε] [DecidableEq α] : DecidableEq (Except ε α) :=
fun x y =>
  match x, y with
  | .ok u, .ok v =>
    if h : u = v then .isTrue (by rw [h]) else .isFalse (by intro hc; cases hc; exact h rfl)
  | .error u, .error v =>
    if h : u = v then .isTrue (by rw [h]) else .isFalse (by intro hc; cases hc; exact h rfl)
  | .ok _, .error _ => .isFalse (by intro hc; cases hc)
  | .error _, .ok _ => .isFalse (by intro hc; cases hc)

/-- The golden decode vector of the spec: year 2023, month raw 11, day raw 24,
hour 23, minute 59, second 58, temp raw 123, humidity raw 456 packed at the
documented offsets. -/
def goldenWord : Nat :=
  58 + 59 * 2 ^ 6 + 23 * 2 ^ 12 + 24 * 2 ^ 17 + 11 * 2 ^ 22 + 2023 * 2 ^ 26 +
    123 * 2 ^ 42 + 456 * 2 ^ 51

/-- Modelled from the spec: the 48-bit word described by the claimed clock
layout, with bit 0 the LSB of byte 0: second in bits 0-5, minute in bits 6-11,
the low 4 hour bits in bits 12-15, hour bit 4 in bit 16, the decremented
weekday-from-Sunday number from bit 17, the zero-based day in bits 20-24, the
zero-based month in bits 25-28, and the year, truncated to the remaining 19
bits, from bit 29. -/
def claimWord (p : NowParts) : Nat :=
  p.second + p.minute * 2 ^ 6 + (p.hour % 16) * 2 ^ 12 + (p.hour / 16 % 2) * 2 ^ 16 +
    (p.weekdayFromSunday - 1) * 2 ^ 17 + p.day0 * 2 ^ 20 + p.month0 * 2 ^ 25 +
    ((p.year % 524288).toNat) * 2 ^ 29

/-- Modelled from the spec: the six bytes of the claimed clock layout. -/
def claimBytes (p : NowParts) : List Nat :=
  [claimWord p % 256, claimWord p / 256 % 256, claimWord p / 65536 % 256,
   claimWord p / 16777216 % 256, claimWord p / 4294967296 % 256,
   claimWord p / 1099511627776 % 256]

/-- The claimed layout word amended to what the code really emits: identical
placement of every field except the year, which is truncated to 11 bits
instead of filling the remaining 19, leaving byte 5 always zero. -/
def amendedWord (p : NowParts) : Nat :=
  p.second + p.minute * 2 ^ 6 + (p.hour % 16) * 2 ^ 12 + (p.hour / 16 % 2) * 2 ^ 16 +
    (p.weekdayFromSunday - 1) * 2 ^ 17 + p.day0 * 2 ^ 20 + p.month0 * 2 ^ 25 +
    ((p.year % 2048).toNat) * 2 ^ 29

/-- The six bytes of the amended clock layout. -/
def amendedBytes (p : NowParts) : List Nat :=
  [amendedWord p % 256, amendedWord p / 256 % 256, amendedWord p / 65536 % 256,
   amendedWord p / 16777216 % 256, amendedWord p / 4294967296 % 256,
   amendedWord p / 1099511627776 % 256]

/-- February never has more than 29 days. -/
theorem daysInMonth_feb_le (y : Int) : daysInMonth y 2 ≤ 29 := by
  unfold daysInMonth
  by_cases h : isLeapYear y <;> simp [h]

/-- A successful `decodeAll` run preserves the record count. -/
theorem decodeAll_length {τ : Type} (tz : NaiveDT → LocalResult τ) :
    ∀ (ws : List Nat) (ms : List (Measurement τ)),
      decodeAll tz ws = .ok ms → ms.length = ws.length := by
  intro ws
  induction ws with
  | nil =>
    intro ms h
    unfold decodeAll at h
    cases h
    rfl
  | cons w ws ih =>
    intro ms h
    unfold decodeAll at h
    cases hd : decode tz w with
    | error e => rw [hd] at h; cases h
    | ok m =>
      rw [hd] at h
      cases ha : decodeAll tz ws with
      | error e => rw [ha] at h; cases h
      | ok ms1 =>
        rw [ha] at h
        cases h
        simp [ih ms1 ha]

/-- One iteration of the receive loop: with a full little-endian word at the
head of the stream, `read_u64_le` yields exactly that word and the loop
decodes it and continues on the rest. -/
theorem recvLoop_le8 {τ : Type} (tz : NaiveDT → LocalResult τ) (tl : TailEvent)
    (w : Nat) (rest : List Nat) (hw : w < 2 ^ 64) :
    recvLoop tz tl (le8 w ++ rest) =
      match decode tz w with
      | .error e => .error e
      | .ok m =>
        match recvLoop tz tl rest with
        | .error e => .error e
        | .ok ms => .ok (m :: ms) := by
  have h64 : u64leB (w % 256) (w / 256 % 256) (w / 65536 % 256) (w / 16777216 % 256)
      (w / 4294967296 % 256) (w / 1099511627776 % 256) (w / 281474976710656 % 256)
      (w / 72057594037927936 % 256) = w := by
    unfold u64leB; omega
  show recvLoop tz tl (_ :: _ :: _ :: _ :: _ :: _ :: _ :: _ :: rest) = _
  rw [recvLoop, h64]

/-- The receive loop over the concatenated encodings of a word list: it
decodes every word in order, and then the tail event decides between a clean
break and a fatal read error. -/
theorem recvLoop_wordsBytes {τ : Type} (tz : NaiveDT → LocalResult τ)
    (tl : TailEvent) :
    ∀ ws : List Nat, (∀ w ∈ ws, w < 2 ^ 64) →
      recvLoop tz tl (wordsBytes ws) =
        match decodeAll tz ws with
        | .error e => .error e
        | .ok ms =>
          match tl with
          | .clean => .ok ms
          | .ioError => .error .readIoError := by
  intro ws
  induction ws with
  | nil =>
    intro _
    unfold wordsBytes decodeAll recvLoop
    rfl
  | cons w ws ih =>
    intro hb
    have hw : w < 2 ^ 64 := hb w (by simp)
    have hws : ∀ x ∈ ws, x < 2 ^ 64 := fun x hx => hb x (by simp [hx])
    unfold wordsBytes
    rw [recvLoop_le8 tz tl w (wordsBytes ws) hw, ih hws]
    cases hd : decode tz w with
    | error e => simp [decodeAll, hd]
    | ok m =>
      cases ha : decodeAll tz ws with
      | error e => simp [decodeAll, hd, ha]
      | ok ms => cases tl <;> simp [decodeAll, hd, ha]

/-- Any declared count at most the maximum plays no further role in the run. -/
theorem run_count_le {τ : Type} (tz : NaiveDT → LocalResult τ) (count : Nat)
    (bytes : List Nat) (tl : TailEvent) (sd : Bool)
    (sink : Measurement τ → Bool) (hc : count ≤ maxCount) :
    run tz count bytes tl sd sink = run tz 0 bytes tl sd sink := by
  unfold run
  rw [if_neg (by omega), if_neg (by unfold maxCount; omega)]

/-- Value of byte 0 of the clock packet on in-range fields. -/
theorem packedByte0_val :
    ∀ s < 60, ∀ m < 60, ((s &&& 63) ||| ((m <<< 6) % 256)) = s + m % 4 * 64 := by
  decide

/-- Value of byte 1 of the clock packet on in-range fields. -/
theorem packedByte1_val :
    ∀ m < 60, ∀ h < 24, (((m >>> 2) &&& 15) ||| ((h <<< 4) % 256)) = m / 4 + h % 16 * 16 := by
  decide

/-- Value of byte 2 of the clock packet on in-range fields, with `v` the
already-decremented weekday. -/
theorem packedByte2_val :
    ∀ h < 24, ∀ v < 7, ∀ d < 31,
      ((((h >>> 4) &&& 1) ||| ((v <<< 1) % 256)) ||| ((d <<< 4) % 256)) =
        h / 16 + v * 2 + d % 16 * 16 := by
  decide

/-- Value of byte 3 of the clock packet on in-range fields, with `u` the year
reduced modulo 8. -/
theorem packedByte3_val :
    ∀ d < 31, ∀ mo < 12, ∀ u < 8,
      ((((d >>> 4) &&& 1) ||| (((mo &&& 15) <<< 1) % 256)) ||| ((u <<< 5) % 256)) =
        d / 16 + mo * 2 + u * 32 := by
  decide

/-- A `u8` shift-left by 5 only sees the low three bits of its argument. -/
theorem shl5_mod256 (c : Nat) : ((c <<< 5) % 256) = (((c % 8) <<< 5) % 256) := by
  simp [Nat.shiftLeft_eq]
  omega

/-- C1: every word the measurement codec decodes successfully has its fields
taken at the documented offsets — second bits 0-5, minute 6-11, hour 12-16,
day bits 17-21 plus one, month bits 22-25 plus one, year bits 26-41 absolute,
temp bits 42-50, humidity bits 51-60 — and the word packing year 2023, month
raw 11, day raw 24, hour 23, minute 59, second 58, temp 123 and humidity 456
decodes to the measurement at local instant 2023-12-25T23:59:58 with temp 123
and humidity 456. -/
theorem decode_field_offsets {τ : Type} (tz : NaiveDT → LocalResult τ)
    (w : Nat) (m : Measurement τ) :
    (decode tz w = .ok m →
      m.temp = ((w >>> 42) &&& 511 : Nat) ∧
      m.humidity = ((w >>> 51) &&& 1023 : Nat) ∧
      tz { year := ((w >>> 26) &&& 65535 : Nat), month := ((w >>> 22) &&& 15) + 1,
           day := ((w >>> 17) &&& 31) + 1, hour := (w >>> 12) &&& 31,
           minute := (w >>> 6) &&& 63, second := w &&& 63 } = .single m.time) ∧
    (∀ t, tz { year := 2023, month := 12, day := 25, hour := 23, minute := 59,
               second := 58 } = .single t →
      decode tz goldenWord = .ok { time := t, temp := 123, humidity := 456 }) := by
  constructor
  · intro h
    unfold decode at h
    by_cases hvd : validDate (extractNDT w).year (extractNDT w).month (extractNDT w).day
    · rw [if_pos hvd] at h
      by_cases hvt : validTime (extractNDT w).hour (extractNDT w).minute (extractNDT w).second
      · rw [if_pos hvt] at h
        cases htz : tz (extractNDT w) with
        | single t => rw [htz] at h; cases h; exact ⟨rfl, rfl, htz⟩
        | ambiguous t1 t2 => rw [htz] at h; cases h
        | none => rw [htz] at h; cases h
      · rw [if_neg hvt] at h; cases h
    · rw [if_neg hvd] at h; cases h
  · intro t htz
    have hext : extractNDT goldenWord =
        { year := 2023, month := 12, day := 25, hour := 23, minute := 59,
          second := 58 } := by decide
    unfold decode
    rw [hext, if_pos (by decide), if_pos (by decide), htz]
    have h1 : decodeTemp goldenWord = 123 := by decide
    have h2 : decodeHumidity goldenWord = 456 := by decide
    rw [h1, h2]

/-- C1 witness: the golden word under a fixed-offset zone that resolves every
naive datetime uniquely. -/
theorem decode_field_offsets_witness :
    decode (fun _ => LocalResult.single ()) goldenWord =
      .ok { time := (), temp := 123, humidity := 456 } :=
  (decode_field_offsets (fun _ => LocalResult.single ()) goldenWord
    { time := (), temp := 123, humidity := 456 }).2 () rfl

/-- C10: a successfully decoded measurement always has temp between 0 and 511
and humidity between 0 and 1023, because the 9-bit and 10-bit masked
extractions bound the values stored in the signed fields. -/
theorem temp_humidity_bounds {τ : Type} (tz : NaiveDT → LocalResult τ)
    (w : Nat) (m : Measurement τ) (h : decode tz w = .ok m) :
    0 ≤ m.temp ∧ m.temp ≤ 511 ∧ 0 ≤ m.humidity ∧ m.humidity ≤ 1023 := by
  unfold decode at h
  by_cases hvd : validDate (extractNDT w).year (extractNDT w).month (extractNDT w).day
  · rw [if_pos hvd] at h
    by_cases hvt : validTime (extractNDT w).hour (extractNDT w).minute (extractNDT w).second
    · rw [if_pos hvt] at h
      cases htz : tz (extractNDT w) with
      | single t =>
        rw [htz] at h
        cases h
        show 0 ≤ decodeTemp w ∧ decodeTemp w ≤ 511 ∧
          0 ≤ decodeHumidity w ∧ decodeHumidity w ≤ 1023
        unfold decodeTemp decodeHumidity
        have h1 : (w >>> 42) &&& 511 ≤ 511 := Nat.and_le_right
        have h2 : (w >>> 51) &&& 1023 ≤ 1023 := Nat.and_le_right
        refine ⟨by omega, by omega, by omega, by omega⟩
      | ambiguous t1 t2 => rw [htz] at h; cases h
      | none => rw [htz] at h; cases h
    · rw [if_neg hvt] at h; cases h
  · rw [if_neg hvd] at h; cases h

/-- C10 witness: the golden word decodes successfully and its raw readings
sit inside the masked ranges. -/
theorem temp_humidity_bounds_witness :
    decode (fun _ => LocalResult.single ()) goldenWord =
      .ok { time := (), temp := 123, humidity := 456 } ∧
    (0 ≤ ({ time := (), temp := 123, humidity := 456 } : Measurement Unit).temp ∧
      ({ time := (), temp := 123, humidity := 456 } : Measurement Unit).temp ≤ 511 ∧
      0 ≤ ({ time := (), temp := 123, humidity := 456 } : Measurement Unit).humidity ∧
      ({ time := (), temp := 123, humidity := 456 } : Measurement Unit).humidity ≤ 1023) :=
  ⟨by decide,
    temp_humidity_bounds (fun _ => LocalResult.single ()) goldenWord
      { time := (), temp := 123, humidity := 456 } (by decide)⟩

/-- C5: a word whose month field is raw 1 (February) and whose day field is
raw 29 (day 30) fails to decode with the invalid-date error regardless of the
year, and such a record makes the whole run abort fatally. -/
theorem invalid_calendar_rejected {τ : Type} (tz : NaiveDT → LocalResult τ)
    (w : Nat) (rest : List Nat) (tl : TailEvent) (count : Nat) (sd : Bool)
    (sink : Measurement τ → Bool)
    (hmn : (w >>> 22) &&& 15 = 1) (hdy : (w >>> 17) &&& 31 = 29)
    (hw : w < 2 ^ 64) (hc : count ≤ maxCount) :
    decode tz w = .error .invalidDate ∧
    run tz count (le8 w ++ rest) tl sd sink = (.fatal .invalidDate, []) := by
  have hmon : (extractNDT w).month = 2 := by
    unfold extractNDT
    simp [hmn]
  have hday : (extractNDT w).day = 30 := by
    unfold extractNDT
    simp [hdy]
  have hnv : ¬ validDate (extractNDT w).year (extractNDT w).month (extractNDT w).day := by
    rw [hmon, hday]
    intro hcon
    unfold validDate at hcon
    have := daysInMonth_feb_le (extractNDT w).year
    omega
  have hdec : decode tz w = .error .invalidDate := by
    unfold decode
    rw [if_neg hnv]
  refine ⟨hdec, ?_⟩
  unfold run
  rw [if_neg (by omega), recvLoop_le8 tz tl w rest hw, hdec]

/-- C5 witness: the concrete word with month raw 1, day raw 29 and every other
field zero is rejected with the invalid-date error and kills the run. -/
theorem invalid_calendar_rejected_witness :
    ((29 * 2 ^ 17 + 1 * 2 ^ 22) >>> 22) &&& 15 = 1 ∧
    ((29 * 2 ^ 17 + 1 * 2 ^ 22) >>> 17) &&& 31 = 29 ∧
    decode (fun _ => LocalResult.single ()) (29 * 2 ^ 17 + 1 * 2 ^ 22) =
      .error .invalidDate ∧
    run (fun _ => LocalResult.single ()) 0 (le8 (29 * 2 ^ 17 + 1 * 2 ^ 22) ++ [])
        .clean true (fun _ => true) = (.fatal .invalidDate, []) := by
  have h := invalid_calendar_rejected (fun _ => LocalResult.single ())
    (29 * 2 ^ 17 + 1 * 2 ^ 22) [] .clean 0 true (fun _ => true)
    (by decide) (by decide) (by decide) (by decide)
  exact ⟨by decide, by decide, h.1, h.2⟩

/-- C6: on a calendar-valid word, local resolution is a trichotomy — a unique
instant decodes successfully, an ambiguous fold window fails with
`ambiguousTime`, a nonexistent gap window fails with `impossibleTime` — and
any decode failure aborts the whole run with no skip-and-continue. -/
theorem local_resolution_trichotomy {τ : Type} (tz : NaiveDT → LocalResult τ)
    (w : Nat)
    (hvd : validDate (extractNDT w).year (extractNDT w).month (extractNDT w).day)
    (hvt : validTime (extractNDT w).hour (extractNDT w).minute (extractNDT w).second) :
    (∀ t, tz (extractNDT w) = .single t →
      decode tz w = .ok { time := t, temp := decodeTemp w, humidity := decodeHumidity w }) ∧
    (∀ t1 t2, tz (extractNDT w) = .ambiguous t1 t2 →
      decode tz w = .error .ambiguousTime) ∧
    (tz (extractNDT w) = .none → decode tz w = .error .impossibleTime) ∧
    (∀ e rest tl count sd sink, count ≤ maxCount → w < 2 ^ 64 →
      decode tz w = .error e →
      run tz count (le8 w ++ rest) tl sd sink = (.fatal e, [])) := by
  refine ⟨?_, ?_, ?_, ?_⟩
  · intro t htz
    unfold decode
    rw [if_pos hvd, if_pos hvt, htz]
  · intro t1 t2 htz
    unfold decode
    rw [if_pos hvd, if_pos hvt, htz]
  · intro htz
    unfold decode
    rw [if_pos hvd, if_pos hvt, htz]
  · intro e rest tl count sd sink hc hw hdec
    unfold run
    rw [if_neg (by omega), recvLoop_le8 tz tl w rest hw, hdec]

/-- C6 witness: the golden word is calendar-valid; under a zone that reports
its naive datetime as ambiguous the decode fails with `ambiguousTime`, under a
zone that reports it nonexistent it fails with `impossibleTime`, and the
ambiguous failure aborts a run carrying that record. -/
theorem local_resolution_trichotomy_witness :
    validDate (extractNDT goldenWord).year (extractNDT goldenWord).month
      (extractNDT goldenWord).day ∧
    decode (fun _ => LocalResult.ambiguous () ()) goldenWord = .error .ambiguousTime ∧
    decode (fun _ => (LocalResult.none : LocalResult Unit)) goldenWord =
      .error .impossibleTime ∧
    run (fun _ => LocalResult.ambiguous () ()) 0 (le8 goldenWord ++ []) .clean true
      (fun _ => true) = (.fatal .ambiguousTime, []) := by
  have hamb := local_resolution_trichotomy (fun _ => LocalResult.ambiguous () ())
    goldenWord (by decide) (by decide)
  have hnone := local_resolution_trichotomy
    (fun _ => (LocalResult.none : LocalResult Unit)) goldenWord (by decide) (by decide)
  have h1 := hamb.2.1 () () rfl
  refine ⟨by decide, h1, hnone.2.2.1 rfl, ?_⟩
  exact hamb.2.2.2 .ambiguousTime [] .clean 0 true (fun _ => true)
    (by decide) (by decide) h1

/-- C3: a declared count strictly above 512 * 16 * 32 = 262144 makes the run
abort at once with the distinguished soft-failure outcome, whatever bytes the
device would have sent, while any count up to the maximum leaves the run
exactly as if the count had been zero and can never produce the soft-failure
outcome. -/
theorem count_bound_enforcement {τ : Type} (tz : NaiveDT → LocalResult τ)
    (count : Nat) (bytes : List Nat) (tl : TailEvent) (sd : Bool)
    (sink : Measurement τ → Bool) :
    (maxCount < count → run tz count bytes tl sd sink = (.countExceeded, [])) ∧
    (count ≤ maxCount →
      run tz count bytes tl sd sink = run tz 0 bytes tl sd sink ∧
      (run tz count bytes tl sd sink).1 ≠ .countExceeded) := by
  constructor
  · intro hgt
    unfold run
    rw [if_pos hgt]
  · intro hle
    refine ⟨run_count_le tz count bytes tl sd sink hle, ?_⟩
    unfold run
    rw [if_neg (by omega)]
    cases hrl : recvLoop tz tl bytes with
    | error e => simp
    | ok ms =>
      cases sd with
      | false => simp
      | true =>
        rcases hins : insertLoop sink ms with ⟨tr, ok⟩
        cases ok <;> simp [hins]

/-- C3 witness: count 262145 aborts with the soft failure on an empty stream,
and count 262144 does not produce the soft-failure outcome. -/
theorem count_bound_enforcement_witness :
    maxCount < 262145 ∧
    run (fun _ => LocalResult.single ()) 262145 [] .clean true (fun _ => true) =
      (.countExceeded, []) ∧
    262144 ≤ maxCount ∧
    (run (fun _ => LocalResult.single ()) 262144 [] .clean true (fun _ => true)).1 ≠
      .countExceeded := by
  refine ⟨by decide, ?_, by decide, ?_⟩
  · exact (count_bound_enforcement (fun _ => LocalResult.single ()) 262145 [] .clean
      true (fun _ => true)).1 (by decide)
  · exact ((count_bound_enforcement (fun _ => LocalResult.single ()) 262144 [] .clean
      true (fun _ => true)).2 (by decide)).2

/-- C4: when the peer sends exactly the little-endian encodings of a word list
and then closes cleanly, the loop decodes every word — the number of forwarded
measurements equals the number of words sent, the declared count (once within
bounds) has no influence on the run, and a stream ending in any non-EOF read
error is fatal instead. -/
theorem loop_terminates_on_eof {τ : Type} (tz : NaiveDT → LocalResult τ)
    (words : List Nat) (ms : List (Measurement τ)) (count : Nat) (sd : Bool)
    (sink : Measurement τ → Bool)
    (hb : ∀ w ∈ words, w < 2 ^ 64) (hdec : decodeAll tz words = .ok ms)
    (hc : count ≤ maxCount) :
    recvLoop tz .clean (wordsBytes words) = .ok ms ∧
    ms.length = words.length ∧
    run tz count (wordsBytes words) .clean sd sink =
      run tz 0 (wordsBytes words) .clean sd sink ∧
    recvLoop tz .ioError (wordsBytes words) = .error .readIoError := by
  refine ⟨?_, decodeAll_length tz words ms hdec,
    run_count_le tz count (wordsBytes words) .clean sd sink hc, ?_⟩
  · rw [recvLoop_wordsBytes tz .clean words hb, hdec]
  · rw [recvLoop_wordsBytes tz .ioError words hb, hdec]

/-- C4 witness: a device that advertises count 0 but sends three golden
records has all three decoded, and the same three records followed by a
transport error are fatal. -/
theorem loop_terminates_on_eof_witness :
    decodeAll (fun _ => LocalResult.single ()) [goldenWord, goldenWord, goldenWord] =
      .ok [{ time := (), temp := 123, humidity := 456 },
           { time := (), temp := 123, humidity := 456 },
           { time := (), temp := 123, humidity := 456 }] ∧
    recvLoop (fun _ => LocalResult.single ()) .clean
        (wordsBytes [goldenWord, goldenWord, goldenWord]) =
      .ok [{ time := (), temp := 123, humidity := 456 },
           { time := (), temp := 123, humidity := 456 },
           { time := (), temp := 123, humidity := 456 }] ∧
    ([{ time := (), temp := 123, humidity := 456 },
      { time := (), temp := 123, humidity := 456 },
      { time := (), temp := 123, humidity := 456 }] : List (Measurement Unit)).length =
      [goldenWord, goldenWord, goldenWord].length ∧
    recvLoop (fun _ => LocalResult.single ()) .ioError
        (wordsBytes [goldenWord, goldenWord, goldenWord]) = .error .readIoError := by
  have h := loop_terminates_on_eof (fun _ => LocalResult.single ())
    [goldenWord, goldenWord, goldenWord]
    [{ time := (), temp := 123, humidity := 456 },
     { time := (), temp := 123, humidity := 456 },
     { time := (), temp := 123, humidity := 456 }]
    0 true (fun _ => true) (by decide) (by decide) (by decide)
  exact ⟨by decide, h.1, h.2.1, h.2.2.2⟩

/-- C7: the sink loop visits the decoded measurements exactly once each,
synchronously and in arrival order — if every insert succeeds the invocation
trace is the whole list in order, and a failing insert is invoked, recorded,
and aborts the loop with no later measurement attempted — and a run whose
receive phase produced `ms` with a successful shutdown ends with exactly that
insertion behaviour, a sink failure being fatal. -/
theorem sink_invocation_order {τ : Type} (tz : NaiveDT → LocalResult τ)
    (sink : Measurement τ → Bool) (ms pre post : List (Measurement τ))
    (m : Measurement τ) (count : Nat) (bytes : List Nat) (tl : TailEvent) :
    ((∀ x ∈ ms, sink x = true) → insertLoop sink ms = (ms, true)) ∧
    ((∀ x ∈ pre, sink x = true) → sink m = false →
      insertLoop sink (pre ++ m :: post) = (pre ++ [m], false)) ∧
    (count ≤ maxCount → recvLoop tz tl bytes = .ok ms →
      run tz count bytes tl true sink =
        (if (insertLoop sink ms).2 then Outcome.success else Outcome.fatal .sinkError,
         (insertLoop sink ms).1)) := by
  refine ⟨?_, ?_, ?_⟩
  · induction ms with
    | nil => intro _; rfl
    | cons m1 ms1 ih =>
      intro hall
      unfold insertLoop
      rw [if_pos (hall m1 (by simp)), ih (fun x hx => hall x (by simp [hx]))]
  · induction pre with
    | nil =>
      intro _ hm
      simp only [List.nil_append]
      unfold insertLoop
      rw [if_neg (by simp [hm])]
    | cons p1 pre1 ih =>
      intro hall hm
      simp only [List.cons_append]
      unfold insertLoop
      rw [if_pos (hall p1 (by simp)), ih (fun x hx => hall x (by simp [hx])) hm]
  · intro hc hrecv
    unfold run
    rw [if_neg (by omega), hrecv]
    rcases hins : insertLoop sink ms with ⟨tr, ok⟩
    cases ok <;> simp [hins]

/-- C7 witness: a passing measurement is inserted and reported, a failing
measurement after it is invoked once and aborts the loop without touching the
one behind it, and an empty accepted stream runs to success. -/
theorem sink_invocation_order_witness :
    insertLoop (fun mm : Measurement Unit => decide (mm.temp < 500))
        [{ time := (), temp := 1, humidity := 2 }] =
      ([{ time := (), temp := 1, humidity := 2 }], true) ∧
    insertLoop (fun mm : Measurement Unit => decide (mm.temp < 500))
        ([{ time := (), temp := 1, humidity := 2 }] ++
          { time := (), temp := 999, humidity := 0 } ::
            [{ time := (), temp := 7, humidity := 8 }]) =
      ([{ time := (), temp := 1, humidity := 2 }] ++
        [{ time := (), temp := 999, humidity := 0 }], false) ∧
    run (fun _ => LocalResult.single ()) 0 [] .clean true
        (fun mm : Measurement Unit => decide (mm.temp < 500)) =
      (.success, []) := by
  have h1 := sink_invocation_order (fun _ => LocalResult.single ())
    (fun mm : Measurement Unit => decide (mm.temp < 500))
    [{ time := (), temp := 1, humidity := 2 }]
    [{ time := (), temp := 1, humidity := 2 }]
    [{ time := (), temp := 7, humidity := 8 }]
    { time := (), temp := 999, humidity := 0 } 0 [] .clean
  have h2 := sink_invocation_order (fun _ => LocalResult.single ())
    (fun mm : Measurement Unit => decide (mm.temp < 500))
    ([] : List (Measurement Unit))
    [{ time := (), temp := 1, humidity := 2 }]
    [{ time := (), temp := 7, humidity := 8 }]
    { time := (), temp := 999, humidity := 0 } 0 [] .clean
  exact ⟨h1.1 (by decide), h1.2.1 (by decide) (by decide),
    h2.2.2 (by decide) rfl⟩

/-- C8: once the receive loop has ended at clean EOF, the connection shutdown
comes before any insert, and its failure is fatal — the run aborts with the
shutdown error and the sink is never invoked. -/
theorem shutdown_failure_fatal {τ : Type} (tz : NaiveDT → LocalResult τ)
    (count : Nat) (bytes : List Nat) (tl : TailEvent)
    (sink : Measurement τ → Bool) (ms : List (Measurement τ))
    (hc : count ≤ maxCount) (hrecv : recvLoop tz tl bytes = .ok ms) :
    run tz count bytes tl false sink = (.fatal .shutdownError, []) := by
  unfold run
  rw [if_neg (by omega), hrecv]
  simp

/-- C8 witness: an empty cleanly-closed stream with a failing shutdown aborts
with the shutdown error and no inserts. -/
theorem shutdown_failure_fatal_witness :
    recvLoop (fun _ => LocalResult.single ()) .clean [] = .ok [] ∧
    run (fun _ => LocalResult.single ()) 0 [] .clean false (fun _ => true) =
      (.fatal .shutdownError, []) :=
  ⟨rfl, shutdown_failure_fatal (fun _ => LocalResult.single ()) 0 [] .clean
    (fun _ => true) [] (by decide) rfl⟩

/-- C2 counterexample: at the instant 4095-03-02 13:45:30 (weekday number 6
from Sunday) the claimed layout, which stores the year truncated to the 19
bits from bit 29 through byte 5, disagrees with the bytes the code emits: the
claimed byte 5 holds year bit 11 and is 1, the emitted byte 5 is 0. -/
theorem packedNow_claimed_layout_counterexample :
    packedNow { year := 4095, month0 := 2, day0 := 1, hour := 13, minute := 45,
                second := 30, weekdayFromSunday := 6 } ≠
      claimBytes { year := 4095, month0 := 2, day0 := 1, hour := 13, minute := 45,
                   second := 30, weekdayFromSunday := 6 } := by
  decide

/-- C2 amended: for every local instant the 6-byte clock packet follows the
claimed bit layout — second bits 0-5, minute 6-11, hour low bits 12-15 and bit
4 at 16, decremented weekday from bit 17, zero-based day bits 20-24,
zero-based month bits 25-28 — except that the year field from bit 29 carries
only the low 11 year bits rather than filling byte 5, which is always zero. -/
theorem packedNow_layout (p : NowParts) (hs : p.second < 60) (hm : p.minute < 60)
    (hh : p.hour < 24) (hw1 : 1 ≤ p.weekdayFromSunday)
    (hw7 : p.weekdayFromSunday ≤ 7) (hd : p.day0 < 31) (hmo : p.month0 < 12) :
    packedNow p = amendedBytes p := by
  obtain ⟨y, mo, d, h, mi, s, wd⟩ := p
  dsimp only at hs hm hh hw1 hw7 hd hmo
  unfold packedNow amendedBytes amendedWord u8i u16i
  dsimp only
  rw [show s % 256 = s by omega, show mi % 256 = mi by omega,
    show h % 256 = h by omega, show wd % 256 = wd by omega,
    show d % 256 = d by omega, show mo % 256 = mo by omega]
  rw [packedByte0_val s hs mi hm, packedByte1_val mi hm h hh,
    packedByte2_val h hh (wd - 1) (by omega) d hd,
    shl5_mod256 ((y % 256).toNat),
    packedByte3_val d hd mo hmo ((y % 256).toNat % 8) (by omega)]
  simp only [Nat.shiftRight_eq_div_pow, Nat.shiftLeft_eq, List.cons.injEq, and_true]
  refine ⟨by omega, by omega, by omega, by omega, by omega, by omega⟩

/-- C2 witness: the amended layout evaluated at the concrete instant
2024-03-02 13:45:30, weekday number 6 from Sunday. -/
theorem packedNow_layout_witness :
    packedNow { year := 2024, month0 := 2, day0 := 1, hour := 13, minute := 45,
                second := 30, weekdayFromSunday := 6 } =
      amendedBytes { year := 2024, month0 := 2, day0 := 1, hour := 13,
                     minute := 45, second := 30, weekdayFromSunday := 6 } :=
  packedNow_layout
    { year := 2024, month0 := 2, day0 := 1, hour := 13, minute := 45,
      second := 30, weekdayFromSunday := 6 }
    (by decide) (by decide) (by decide) (by decide) (by decide) (by decide)
    (by decide)

/-- C9: byte 5 of the clock packet is always zero — the year is shifted left
by 11 before the `u16` value is truncated to 8 bits — and the whole packet
depends on the year only through its low 11 bits, so year information above
bit 10 never reaches the wire. -/
theorem encoded_year_truncated (p : NowParts) :
    packedNow p = (packedNow p).take 5 ++ [0] ∧
    packedNow p = packedNow { p with year := p.year % 2048 } := by
  obtain ⟨y, mo, d, h, mi, s, wd⟩ := p
  constructor
  · unfold packedNow u16i
    dsimp only
    simp only [List.take_succ_cons, List.take_zero, List.cons_append,
      List.nil_append, List.cons.injEq, and_true, true_and]
    simp only [Nat.shiftLeft_eq]
    omega
  · unfold packedNow u8i u16i
    dsimp only
    simp only [Nat.shiftRight_eq_div_pow, Nat.shiftLeft_eq, List.cons.injEq,
      and_true, true_and]
    refine ⟨?_, ?_, ?_⟩
    · rw [show (y % 256).toNat = ((y % 2048) % 256).toNat by omega]
    · omega
    · omega

end PicoHTR
